import Mathlib

/-!
Verification of the chat-summarizer durable-log / upload-state / retrieval
pipeline against its natural-language specification.

The definitions below are a shallow embedding of the TypeScript source:

* `FileWriter`   — `src/file-writer.ts` (`SafeFileWriter.enqueueWrite`,
  `safeAppend`, `safeUpdate`);
* `UploadState`  — the `chat_log_files` table operations and the daily upload
  scheduler in `src/index.ts` (`createOrUpdateChatLogFileRecord`,
  `checkIfDateGroupAlreadyUploaded`, `executeAutoUpload`,
  `handleFileRetention`, `executeLocalFileCleanup`);
* `S3Keys`       — the static key generators of `S3Uploader`
  (`generateImageKey`, `generateChatLogKey`, ...);
* `Export`       — `src/export.ts` (`ExportManager.parseTimeRange`,
  `parseDate`, `checkLocalFiles`, `checkS3Files` and the decision part of
  `exportChatData`).

JavaScript `Date` values are embedded as milliseconds since the Unix epoch
(`Int`).  The host timezone (implicit in `new Date(...)` constructions) is an
explicit `tz` parameter in minutes east of UTC; the deployment target of the
plugin is `Asia/Shanghai`, i.e. `tz = 480`, and no daylight saving time is
modelled (China observes none).  Calendar conversions use the standard civil
calendar algorithms.
-/

namespace ChatSummarizer

/-! ## Calendar and string utilities (model of `src/utils.ts`) -/

/-- Milliseconds in one day. -/
def msPerDay : Int := 86400000

/-- Days since the epoch of the civil date `(y, m, d)` (proleptic Gregorian). -/
def daysFromCivil (y m d : Int) : Int :=
  let y2 := y - (if m ≤ 2 then 1 else 0)
  let era := y2.fdiv 400
  let yoe := y2 - era * 400
  let mp := m + (if m > 2 then (-3 : Int) else 9)
  let doy := (153 * mp + 2).fdiv 5 + d - 1
  let doe := yoe * 365 + yoe.fdiv 4 - yoe.fdiv 100 + doy
  era * 146097 + doe - 719468

/-- Civil date `(y, m, d)` of a number of days since the epoch. -/
def civilFromDays (z0 : Int) : Int × Int × Int :=
  let z := z0 + 719468
  let era := z.fdiv 146097
  let doe := z - era * 146097
  let yoe := (doe - doe.fdiv 1460 + doe.fdiv 36524 - doe.fdiv 146096).fdiv 365
  let y := yoe + era * 400
  let doy := doe - (365 * yoe + yoe.fdiv 4 - yoe.fdiv 100)
  let mp := (5 * doy + 2).fdiv 153
  let d := doy - (153 * mp + 2).fdiv 5 + 1
  let m := mp + (if mp < 10 then 3 else -9)
  (y + (if m ≤ 2 then 1 else 0), m, d)

/-- Zero-pad a natural number to two digits (`2-digit` rendering). -/
def pad2 (n : Int) : String :=
  if n < 10 then "0" ++ toString n else toString n

/-- Render a civil day number as `YYYY-MM-DD`. -/
def civilDateString (n : Int) : String :=
  let c := civilFromDays n
  toString c.1 ++ "-" ++ pad2 c.2.1 ++ "-" ++ pad2 c.2.2

/-- `getDateStringInUTC8` from `src/utils.ts`: the `YYYY-MM-DD` string of a
timestamp in the `Asia/Shanghai` (UTC+8, no DST) timezone. -/
def getDateStringInUTC8 (ts : Int) : String :=
  civilDateString ((ts + 8 * 3600 * 1000).fdiv msPerDay)

/-! ### String utilities

Core `String` functions (`splitOn`, `trim`, ...) are re-implemented on
`List Char` so that all definitions evaluate inside the kernel; they model the
corresponding JavaScript string operations. -/

/-- Build a string from its characters. -/
def ofChars (cs : List Char) : String := String.mk cs

/-- JavaScript `p.startsWith(s)` / an anchored regex prefix match. -/
def strStartsWith (s p : String) : Bool := p.data.isPrefixOf s.data

/-- JavaScript `s.endsWith(p)` / a `$`-anchored regex suffix match. -/
def strEndsWith (s p : String) : Bool := p.data.isSuffixOf s.data

/-- Drop everything up to and including the first occurrence of `pat`;
`none` when `pat` does not occur (first-match regex/`indexOf` scanning). -/
def dropAfterFirst (pat : List Char) : List Char → Option (List Char)
  | [] => if pat.isPrefixOf ([] : List Char) then some [] else none
  | c :: rest =>
    if pat.isPrefixOf (c :: rest) then some ((c :: rest).drop pat.length)
    else dropAfterFirst pat rest

/-- JavaScript `s.includes(sub)`. -/
def strContains (s sub : String) : Bool := (dropAfterFirst sub.data s.data).isSome

/-- JavaScript `String.prototype.trim` (strip whitespace at both ends). -/
def jsTrim (s : String) : String :=
  ofChars (((s.data.dropWhile Char.isWhitespace).reverse.dropWhile
    Char.isWhitespace).reverse)

/-- Split a character list at every occurrence of `sep`
(JavaScript `split` with a one-character separator). -/
def splitChar (sep : Char) : List Char → List (List Char)
  | [] => [[]]
  | c :: rest =>
    match splitChar sep rest with
    | [] => [[]]
    | g :: gs => if c = sep then [] :: g :: gs else (c :: g) :: gs

/-- JavaScript `s.split(sep)` for a one-character separator. -/
def jsSplit (sep : Char) (s : String) : List String :=
  (splitChar sep s.data).map ofChars

/-- JavaScript `Array.prototype.join('\n')` (= `String.intercalate`). -/
def jsJoin (sep : String) : List String → String
  | [] => ""
  | [s] => s
  | s :: rest => s ++ sep ++ jsJoin sep rest

/-- Remove the first occurrence of `pat` from `s`
(JavaScript `s.replace(pat, '')` with a string pattern). -/
def replaceFirst (s pat : String) : String :=
  match go s.data with
  | some r => ofChars r
  | none => s
where
  go : List Char → Option (List Char)
    | [] => none
    | c :: rest =>
      if pat.data.isPrefixOf (c :: rest) then some ((c :: rest).drop pat.data.length)
      else match go rest with
        | some r => some (c :: r)
        | none => none

/-- Numeric value of a digit string (`cs` is assumed to be all digits). -/
def natOfDigits (cs : List Char) : Nat :=
  cs.foldl (fun acc c => acc * 10 + (c.toNat - '0'.toNat)) 0

/-- Does the string contain a path separator? -/
def hasSlash (s : String) : Bool := s.data.any (fun c => c = '/')

/-! ## `FileWriter`: per-path promise chains (`src/file-writer.ts`)

`SafeFileWriter.enqueueWrite` chains each operation for a path onto the
previous promise for the same path:

```
const newChain = existingChain.then(operation)
  .catch(error => { log; throw error })
  .finally(cleanup)
```

Promise semantics: `.then(operation)` runs `operation` only when the previous
chain FULFILLED; when the previous chain rejected, `operation` is skipped and
the rejection propagates through the `.catch` (which rethrows) to this
operation's caller.  We model one batch of operations enqueued on the same
key before any of them settles (so the `finally` cleanup has not yet removed
the chain from the map).  Each operation is represented by the outcome it
would produce if executed (`Except String Unit`). -/

namespace FileWriter

deriving instance DecidableEq for Except

/-- Result observed for one enqueued operation: whether the operation body
actually executed, and the outcome delivered to the operation's caller. -/
structure ChainResult where
  executed : Bool
  result : Except String Unit
  deriving Repr, DecidableEq

/-- Run a batch of operations chained on one key.  `pending` carries the
error of the chain when some earlier operation rejected. -/
def chainRunAux (pending : Option String) : List (Except String Unit) → List ChainResult
  | [] => []
  | op :: rest =>
    match pending with
    | none =>
      { executed := true, result := op } ::
        chainRunAux (match op with | .ok _ => none | .error e => some e) rest
    | some e =>
      { executed := false, result := .error e } :: chainRunAux (some e) rest

/-- `enqueueWrite` applied to a batch of operations enqueued on the same file
path (before any of them settles), starting from a fresh chain. -/
def chainRun (ops : List (Except String Unit)) : List ChainResult :=
  chainRunAux none ops

/-- First error among a list of operation outcomes. -/
def firstError : List (Except String Unit) → Option String
  | [] => none
  | .ok _ :: rest => firstError rest
  | .error e :: _ => some e

/-! ### `SafeFileWriter.safeUpdate` (file-writer.ts lines 20-72)

The update operation splits the file on `'\n'`, maps over the lines —
keeping blank lines, keeping unparsable lines, and substituting the new
content for every parsed line whose `messageId` equals the target — then, if
no line matched, inserts the new content after the last non-blank line, and
finally drops empty lines and rejoins with a trailing newline.

`JSON.parse` followed by the `.messageId` field access is abstracted as a
function `parse : String → Option String` (`none` models both a parse
failure and a missing/non-string `messageId`). -/

/-- One step of the `lines.map(...)` in `safeUpdate`: blank lines and
unparsable lines are kept; a parsed line whose id matches is replaced. -/
def updateLine (parse : String → Option String) (msgId clean line : String) : String :=
  if jsTrim line = "" then line
  else
    match parse line with
    | some i => if i = msgId then clean else line
    | none => line

/-- Whether `safeUpdate` considers `line` a match for `msgId` (sets `found`). -/
def lineMatches (parse : String → Option String) (msgId line : String) : Bool :=
  decide (jsTrim line ≠ "") && decide (parse line = some msgId)

/-- The `if (!found)` insertion: splice the new content right after the last
line whose trimmed text is non-empty (or push it when there is none). -/
def insertAfterLastNonEmpty (clean : String) (lines : List String) : List String :=
  let revTail := lines.reverse.takeWhile (fun l => jsTrim l = "")
  let revInit := lines.reverse.dropWhile (fun l => jsTrim l = "")
  match revInit with
  | [] => lines ++ [clean]
  | _ :: _ => revInit.reverse ++ [clean] ++ revTail.reverse

/-- The line-level core of `safeUpdate`: map/replace, insert when the id was
not found, and drop lines that are exactly the empty string. -/
def safeUpdateLines (parse : String → Option String) (msgId clean : String)
    (lines : List String) : List String :=
  let updated := lines.map (updateLine parse msgId clean)
  let found := lines.any (lineMatches parse msgId)
  let afterInsert := if found then updated else insertAfterLastNonEmpty clean updated
  afterInsert.filter (fun l => l ≠ "")

/-- `safeUpdate` on the whole file content (existing-file path): strip one
trailing newline from the new content, run the line-level update on
`content.split('\n')`, and rejoin with a final newline. -/
def safeUpdateContent (parse : String → Option String) (msgId newContent content : String) :
    String :=
  let clean := if strEndsWith newContent "\n" then ofChars newContent.data.dropLast
    else newContent
  jsJoin "\n" (safeUpdateLines parse msgId clean (jsSplit '\n' content)) ++ "\n"

/-- Concrete stand-in for `JSON.parse(line).messageId` on the canonical
one-record-per-line JSON produced by the writer: the value of the first
`"messageId":"..."` field. -/
def extractMessageId (line : String) : Option String :=
  match dropAfterFirst "\x22messageId\x22:\x22".data line.data with
  | some rest => some (ofChars (rest.takeWhile (fun c => c ≠ '\x22')))
  | none => none

end FileWriter

/-! ## `S3Keys`: `S3Uploader` static key generators (s3-uploader.ts lines 539-593)

`generateImageKey` / `generateFileKey` / `generateVideoKey` read the ambient
clock (`Date.now()`); that read is an explicit `now : Int` parameter here.
`generateChatLogKey` reads no clock — its timestamp comes from the `date`
argument. -/

namespace S3Keys

/-- Model of `new URL(url).pathname` for ordinary `scheme://host/path` URLs:
`none` when the URL has no `://` (the constructor would throw). -/
def urlPathname (url : String) : Option String :=
  match ChatSummarizer.dropAfterFirst "://".data url.data with
  | none => none
  | some afterScheme =>
    let path := afterScheme.dropWhile (fun c => c ≠ '/')
    some (ofChars (match path with | [] => ['/'] | _ => path))

/-- Is `c` allowed in the `[a-z0-9]` extension character class? -/
def isExtChar (c : Char) : Bool := c.isDigit || (c.isLower && c.isAlpha)

/-- The regex `\.([a-z0-9]+)$` applied to a (lowercased) pathname:
the maximal trailing run of extension characters preceded by a dot. -/
def extFromPathname (p : String) : Option String :=
  let rev := p.data.reverse
  let ds := rev.takeWhile isExtChar
  match rev.drop ds.length with
  | '.' :: _ => if ds.isEmpty then none else some (ofChars ds.reverse)
  | _ => none

/-- `S3Uploader.getImageExtension`: extension of the URL pathname, `jpg` when
the URL is invalid or has no extension. -/
def getImageExtension (url : String) : String :=
  match urlPathname url with
  | none => "jpg"
  | some p =>
    match extFromPathname (ofChars (p.data.map Char.toLower)) with
    | some e => e
    | none => "jpg"

/-- `S3Uploader.generateImageKey`.  `now` is the `Date.now()` read the source
performs inside the function body. -/
def generateImageKey (messageId url : String) (guildId : Option String)
    (index : Nat) (now : Int) : String :=
  let extension := getImageExtension url
  let dateStr := getDateStringInUTC8 now
  let suffix := if index > 0 then "_" ++ toString index else ""
  let groupPath := match guildId with | some g => g | none => "private"
  "images/" ++ dateStr ++ "/" ++ groupPath ++ "/" ++ messageId ++ "_" ++
    toString now ++ suffix ++ "." ++ extension

/-- `S3Uploader.generateChatLogKey`: pure in `(date, guildId)`; the timestamp
segment is the date argument's epoch value, not the clock. -/
def generateChatLogKey (dateTs : Int) (guildId : Option String) : String :=
  let dateStr := getDateStringInUTC8 dateTs
  match guildId with
  | some g => "chat-logs/" ++ dateStr ++ "/guild_" ++ g ++ "_" ++ toString dateTs ++ ".json"
  | none => "chat-logs/" ++ dateStr ++ "/private_" ++ toString dateTs ++ ".json"

end S3Keys

/-! ## `UploadState`: the `chat_log_files` table and the daily scheduler
(`src/index.ts`)

The koishi database table `chat_log_files` is embedded as a list of records;
`database.create` appends with a fresh auto-increment id, `database.set`
by id updates every record with that id, `database.get` filters. -/

namespace UploadState

/-- The `status` column: `'pending' | 'uploading' | 'uploaded' | 'failed'`. -/
inductive Status where
  | pending
  | uploading
  | uploaded
  | failed
  deriving Repr, DecidableEq

/-- One row of `chat_log_files` (`ChatLogFileRecord` in `src/types.ts`). -/
structure ChatLogFileRecord where
  id : Nat
  guildId : Option String
  date : String
  filePath : String
  s3Key : String
  s3Url : Option String
  fileSize : Nat
  recordCount : Nat
  uploadedAt : Int
  status : Status
  error : Option String
  deriving Repr, DecidableEq

/-- Does a row match the natural key `(date, guildId)`? -/
def keyMatches (date : String) (gid : Option String) (r : ChatLogFileRecord) : Bool :=
  decide (r.date = date) && decide (r.guildId = gid)

/-- `DatabaseOperations.getChatLogFileRecord`: all rows matching
`(date, guildId)`, first one or `none`. -/
def getRecord (date : String) (gid : Option String)
    (db : List ChatLogFileRecord) : Option ChatLogFileRecord :=
  (db.filter (keyMatches date gid)).head?

/-- `DatabaseOperations.checkChatLogFileUploaded`: does a row with this
natural key and status `uploaded` exist? -/
def checkUploaded (date : String) (gid : Option String)
    (db : List ChatLogFileRecord) : Bool :=
  (db.filter (fun r => keyMatches date gid r && decide (r.status = Status.uploaded))).length > 0

/-- Number of rows with the natural key `(date, guildId)`. -/
def keyCount (date : String) (gid : Option String)
    (db : List ChatLogFileRecord) : Nat :=
  (db.filter (keyMatches date gid)).length

/-- The natural-key uniqueness invariant: at most one row per
`(date, guildId)` pair. -/
def noDupKeys (db : List ChatLogFileRecord) : Prop :=
  ∀ date gid, keyCount date gid db ≤ 1

/-- Fresh auto-increment id for `database.create`. -/
def nextId (db : List ChatLogFileRecord) : Nat :=
  db.foldr (fun r acc => max r.id acc) 0 + 1

/-- `DatabaseOperations.updateChatLogFileRecord` (`database.set` keyed by
`id`): apply the field updates to every row with the given id. -/
def updateById (db : List ChatLogFileRecord) (id : Nat)
    (upd : ChatLogFileRecord → ChatLogFileRecord) : List ChatLogFileRecord :=
  db.map (fun r => if r.id = id then upd r else r)

/-- `createOrUpdateChatLogFileRecord` (index.ts lines 580-635): upsert by the
natural key `(date, guildId)` — update the existing row's mutable fields, or
`database.create` a new row when none exists.  `now` is `Date.now()`. -/
def createOrUpdateChatLogFileRecord (now dateTs : Int) (groupKey : String)
    (filePath s3Key : String) (fileSize recordCount : Nat)
    (s3Url : Option String) (status : Status) (error : Option String)
    (db : List ChatLogFileRecord) : List ChatLogFileRecord :=
  let dateStr := getDateStringInUTC8 dateTs
  let gid := if groupKey = "private" then none else some groupKey
  match getRecord dateStr gid db with
  | some existing =>
    updateById db existing.id (fun r =>
      { r with s3Url := s3Url, fileSize := fileSize, recordCount := recordCount,
               status := status, error := error,
               uploadedAt := if status = Status.uploaded then now else existing.uploadedAt })
  | none =>
    db ++ [{ id := nextId db, guildId := gid, date := dateStr, filePath := filePath,
             s3Key := s3Key, s3Url := s3Url, fileSize := fileSize,
             recordCount := recordCount,
             uploadedAt := if status = Status.uploaded then now else 0,
             status := status, error := error }]

/-- `checkIfDateGroupAlreadyUploaded` (index.ts lines 541-578): `true` means
"skip the upload".  `hasRecords` abstracts the `chat_records` count query for
that day and group. -/
def checkIfDateGroupAlreadyUploaded (dateTs : Int) (groupKey : String)
    (hasRecords : Bool) (db : List ChatLogFileRecord) : Bool :=
  let dateStr := getDateStringInUTC8 dateTs
  let gid := if groupKey = "private" then none else some groupKey
  if checkUploaded dateStr gid db then true
  else if hasRecords = false then true
  else false

/-- A file of the local `data` directory as seen through `fs.stat`:
name, size, modification time, and whether `stat` succeeds. -/
structure LocalFile where
  name : String
  size : Nat
  mtime : Int
  statOk : Bool
  deriving Repr, DecidableEq

/-- `handleFileRetention` (index.ts lines 506-539), reduced to its decision:
after a successful upload the local file is deleted iff retention is enabled,
`stat` succeeds, and the file's mtime is older than `now - retentionDays`. -/
def handleFileRetentionDeletes (retentionDays now mtime : Int) (statOk : Bool) : Bool :=
  decide (retentionDays > 0) && statOk && decide (mtime ≤ now - retentionDays * msPerDay)

/-- The `for` loop of `executeLocalFileCleanup` (index.ts lines 900-924):
names of the files it deletes.  Only `.jsonl` files whose `stat` succeeds and
whose mtime is at most the cutoff are deleted; the upload-state store is
never consulted. -/
def cleanupLoop (cutoff : Int) : List LocalFile → List String
  | [] => []
  | f :: rest =>
    if strEndsWith f.name ".jsonl" then
      if f.statOk then
        if f.mtime ≤ cutoff then f.name :: cleanupLoop cutoff rest
        else cleanupLoop cutoff rest
      else cleanupLoop cutoff rest
    else cleanupLoop cutoff rest

/-- `executeLocalFileCleanup` (index.ts lines 881-935): the hourly sweep.
`uploadStatus` is the upload-state lookup that the claim says must gate
deletion; the source never reads it, and it is threaded here to make that
explicit. -/
def executeLocalFileCleanup (retentionDays now : Int)
    (uploadStatus : String → Option Status) (files : List LocalFile) : List String :=
  if retentionDays ≤ 0 then []
  else cleanupLoop (now - retentionDays * msPerDay) files

/-- One entry of the `filesToUpload` array in `executeAutoUpload`. -/
structure UploadEntry where
  filePath : String
  key : String
  groupKey : String
  deriving Repr, DecidableEq

/-- The file-selection phase of `executeAutoUpload` (index.ts lines 656-726):
pick yesterday's `.jsonl` files, skip empty or unreadable ones, skip
partition-dates the state store already records as uploaded, and generate the
storage key. -/
def prepareFilesToUpload (dateTs : Int) (hasRecords : String → Bool)
    (files : List LocalFile) (db : List ChatLogFileRecord) : List UploadEntry :=
  let dateStr := getDateStringInUTC8 dateTs
  let targets := files.filter (fun f =>
    strEndsWith f.name ("_" ++ dateStr ++ ".jsonl") &&
      decide (f.name ≠ "." ++ dateStr ++ ".jsonl"))
  targets.filterMap (fun f =>
    let groupKey := replaceFirst f.name ("_" ++ dateStr ++ ".jsonl")
    if f.statOk = false then none
    else if f.size = 0 then none
    else if checkIfDateGroupAlreadyUploaded dateTs groupKey (hasRecords groupKey) db then none
    else some { filePath := "data/" ++ f.name,
                key := S3Keys.generateChatLogKey dateTs
                  (if groupKey = "private" then none else some groupKey),
                groupKey := groupKey })

/-- Outcome of one per-file upload task in `executeAutoUpload`:
either `uploadFile` resolved (it never rejects — `UploadResult` carries
success or an error string), or the 60-second `Promise.race` deadline fired
first and the task rejected. -/
inductive UploadOutcome where
  | resolved (success : Bool) (error : Option String) (url : Option String)
  | deadline
  deriving Repr, DecidableEq

/-- One upload task of `executeAutoUpload` (index.ts lines 740-814).
Returns the updated table and whether the task counts as a success in the
final summary.  On `deadline` the `await` throws, the surrounding `catch`
logs and returns a failure result — no state-store write happens.  The
success path additionally applies `handleFileRetention` to the local file,
an effect on the filesystem only (never on the state table), whose deletion
decision is modelled by `handleFileRetentionDeletes`. -/
def runUploadTask (now dateTs : Int) (statSize : String → Nat)
    (recCount : String → Nat) (entry : UploadEntry) (outcome : UploadOutcome)
    (db : List ChatLogFileRecord) : List ChatLogFileRecord × Bool :=
  match outcome with
  | .deadline => (db, false)
  | .resolved true _ url =>
    (createOrUpdateChatLogFileRecord now dateTs entry.groupKey entry.filePath
      entry.key (statSize entry.filePath) (recCount entry.filePath) url
      Status.uploaded none db, true)
  | .resolved false err _ =>
    (createOrUpdateChatLogFileRecord now dateTs entry.groupKey entry.filePath
      entry.key (statSize entry.filePath) 0 none Status.failed err db, false)

/-- The upload phase of `executeAutoUpload`: every prepared file is uploaded
(`Promise.allSettled` — one task's failure never stops the others);
state-store writes are serialized by the event loop.  Returns the final table
and the summary counts `(successCount, totalCount)`. -/
def runUploads (now dateTs : Int) (statSize recCount : String → Nat)
    (outcomes : String → UploadOutcome) (entries : List UploadEntry)
    (db : List ChatLogFileRecord) : List ChatLogFileRecord × Nat × Nat :=
  match entries with
  | [] => (db, 0, 0)
  | e :: rest =>
    let step := runUploadTask now dateTs statSize recCount e (outcomes e.groupKey) db
    let next := runUploads now dateTs statSize recCount outcomes rest step.1
    (next.1, (if step.2 then 1 else 0) + next.2.1, 1 + next.2.2)

/-- `executeAutoUpload` (index.ts lines 641-830): select yesterday's files,
then run the uploads and report the summary. -/
def executeAutoUpload (now dateTs : Int) (hasRecords : String → Bool)
    (statSize recCount : String → Nat) (outcomes : String → UploadOutcome)
    (files : List LocalFile) (db : List ChatLogFileRecord) :
    List ChatLogFileRecord × Nat × Nat :=
  runUploads now dateTs statSize recCount outcomes
    (prepareFilesToUpload dateTs hasRecords files db) db

end UploadState

/-! ## `Export`: `ExportManager` (`src/export.ts`)

`exportChatData` is embedded up to its decision structure: resolve the date
range, check local and remote availability, reject empty or incomplete
ranges, and select which remote files to download.  The filesystem and the
object store are an explicit environment. -/

namespace Export

/-- Does the string have the exact shape `\d{4}-\d{2}-\d{2}`? -/
def dateShape (s : String) : Bool :=
  match s.data with
  | [a, b, c, d, '-', e, f, '-', g, h] =>
    a.isDigit && b.isDigit && c.isDigit && d.isDigit &&
      e.isDigit && f.isDigit && g.isDigit && h.isDigit
  | _ => false

/-- Anchored match of `chat-logs\/(\d{4}-\d{2}-\d{2})\/` at the head of the
character list, returning the captured date. -/
def s3MatchAt : List Char → Option String
  | 'c' :: 'h' :: 'a' :: 't' :: '-' :: 'l' :: 'o' :: 'g' :: 's' :: '/' ::
      a :: b :: c :: d :: '-' :: e :: f :: '-' :: g :: h :: '/' :: _ =>
    if a.isDigit && b.isDigit && c.isDigit && d.isDigit &&
        e.isDigit && f.isDigit && g.isDigit && h.isDigit then
      some (ofChars [a, b, c, d, '-', e, f, '-', g, h])
    else none
  | _ => none

/-- Left-to-right scan for the first match of `s3MatchAt`. -/
def scanS3DateAux : List Char → Option String
  | [] => none
  | c :: rest =>
    match s3MatchAt (c :: rest) with
    | some d => some d
    | none => scanS3DateAux rest

/-- `s3File.match(/chat-logs\/(\d{4}-\d{2}-\d{2})\//)` (export.ts line 386):
the date of the first `chat-logs/<date>/` segment of a storage key. -/
def extractS3Date (s : String) : Option String := scanS3DateAux s.data

/-- `path.basename`: the part of a path after its last `/`. -/
def basename (s : String) : String :=
  ofChars ((s.data.reverse.takeWhile (fun c => c ≠ '/')).reverse)

/-- `request.guildId || 'private'`: the partition group key of an export. -/
def exportGroupKey (guildId : Option String) : String :=
  match guildId with | some g => g | none => "private"

/-- The local partition file name `{groupKey}_{date}.jsonl`. -/
def localFileName (groupKey date : String) : String :=
  groupKey ++ "_" ++ date ++ ".jsonl"

/-- The regex `^{escaped groupKey}_(.+)\.jsonl$` of export.ts line 377
applied to a file's base name: the captured date-ish middle part. -/
def extractLocalDate (groupKey name : String) : Option String :=
  let pref := groupKey ++ "_"
  if strStartsWith name pref && strEndsWith name ".jsonl" &&
      decide (pref.data.length + 6 < name.data.length) then
    some (ofChars ((name.data.drop pref.data.length).take
      (name.data.length - pref.data.length - 6)))
  else none

/-- The filesystem and object store as `exportChatData` sees them. -/
structure ExportEnv where
  dataFiles : List String
  s3Enabled : Bool
  listSuccess : Bool
  listing : List String
  deriving Repr, DecidableEq

/-- `ExportManager.checkLocalFiles` (export.ts lines 145-163): for each
requested date, the path of the partition file when it exists. -/
def checkLocalFiles (env : ExportEnv) (guildId : Option String)
    (dates : List String) : List String :=
  let groupKey := exportGroupKey guildId
  dates.filterMap (fun d =>
    let fileName := localFileName groupKey d
    if env.dataFiles.any (fun n => decide (n = fileName)) then
      some ("data/" ++ fileName)
    else none)

/-- The per-date regex of `checkS3Files` (export.ts lines 188-190), up to
its `\d+\.json$` tail: the fixed prefix before the timestamp digits. -/
def s3Pattern (guildId : Option String) (dateStr : String) : String :=
  match guildId with
  | some g => "chat-logs/" ++ dateStr ++ "/guild_" ++ g ++ "_"
  | none => "chat-logs/" ++ dateStr ++ "/private_"

/-- `pattern.test(file)` for `chat-logs/{date}/{group}_\d+\.json$`: the key
ends with the fixed pattern, one or more digits and `.json`. -/
def s3FileMatches (guildId : Option String) (dateStr file : String) : Bool :=
  let pat := (s3Pattern guildId dateStr).data
  let cs := file.data
  if ".json".data.isSuffixOf cs then
    let core := cs.take (cs.length - 5)
    let ds := (core.reverse.takeWhile Char.isDigit).length
    decide (0 < ds) && pat.isSuffixOf (core.take (core.length - ds))
  else false

/-- `ExportManager.checkS3Files` (export.ts lines 168-200): for each
requested date, the first listed key matching that date's pattern. -/
def checkS3Files (env : ExportEnv) (guildId : Option String)
    (dates : List String) : List String :=
  if env.s3Enabled = false then []
  else if env.listSuccess = false then []
  else dates.filterMap (fun d => env.listing.find? (s3FileMatches guildId d))

/-- The decision `exportChatData` reaches after the availability checks
(export.ts lines 330-394): reject with "no records", reject as incomplete,
or proceed with the local files and the remote keys to download. -/
inductive ExportDecision where
  | noRecords
  | incomplete (missing : List String)
  | proceed (localFiles : List String) (toDownload : List String)
  deriving Repr, DecidableEq

/-- The availability / completeness / download-selection logic of
`exportChatData` (export.ts lines 330-394), verbatim:
`availableDays = localFiles.length + s3Files.length` is compared with the
number of requested dates, then remote keys whose extracted date already has
a local file are excluded from the download list. -/
def exportCheck (env : ExportEnv) (guildId : Option String)
    (dates : List String) : ExportDecision :=
  let localFiles := checkLocalFiles env guildId dates
  let s3Files := checkS3Files env guildId dates
  let totalDays := dates.length
  let availableDays := localFiles.length + s3Files.length
  if availableDays = 0 then .noRecords
  else if availableDays < totalDays then
    let checkGroupKey := exportGroupKey guildId
    .incomplete (dates.filter (fun date =>
      !(localFiles.any (fun f => strContains f (localFileName checkGroupKey date))) &&
        !(s3Files.any (fun f => strContains f date))))
  else
    let currentGroupKey := exportGroupKey guildId
    let localDateStrings := localFiles.filterMap (fun fp =>
      extractLocalDate currentGroupKey (basename fp))
    let toDownload := s3Files.filter (fun f =>
      match extractS3Date f with
      | some d => !(localDateStrings.any (fun x => decide (x = d)))
      | none => false)
    .proceed localFiles toDownload

/-- `ExportManager.parseDate` (export.ts lines 128-140): full
`YYYY-MM-DD`, or `MM-DD` completed with the current year; anything else
throws (`none`). -/
def parseDateStr (nowYear : Int) (s : String) : Option (Int × Int × Int) :=
  match s.data with
  | [a, b, c, d, '-', e, f, '-', g, h] =>
    if a.isDigit && b.isDigit && c.isDigit && d.isDigit &&
        e.isDigit && f.isDigit && g.isDigit && h.isDigit then
      some ((natOfDigits [a, b, c, d] : Int), (natOfDigits [e, f] : Int),
        (natOfDigits [g, h] : Int))
    else none
  | [e, f, '-', g, h] =>
    if e.isDigit && f.isDigit && g.isDigit && h.isDigit then
      some (nowYear, (natOfDigits [e, f] : Int), (natOfDigits [g, h] : Int))
    else none
  | _ => none

/-- `new Date(dateStr + 'T00:00:00')`: local midnight of a civil date, for a
host timezone `tz` minutes east of UTC. -/
def localMidnightMs (tz y m d : Int) : Int :=
  daysFromCivil y m d * msPerDay - tz * 60000

/-- The spec's words, as a second definition for the refinement comparison:
the "inclusive, ordered list of calendar dates" from one civil date to
another — consecutive civil day numbers, each rendered as `YYYY-MM-DD`,
independently of the source's expansion loop. -/
def specCalendarRange (y1 m1 d1 y2 m2 d2 : Int) : List String :=
  let a := daysFromCivil y1 m1 d1
  let b := daysFromCivil y2 m2 d2
  (List.range (if a ≤ b then (b - a).toNat + 1 else 0)).map
    (fun i : Nat => civilDateString (a + (i : Int)))

/-- The date-string loop of `parseTimeRange` (export.ts lines 114-120):
`while (currentDate <= endDate) push(getDateStringInUTC8(...)); +1 day`.
Fuel-based so it evaluates in the kernel; the wrapper supplies enough fuel
for every iteration the source loop performs. -/
def dateStringsLoop : Nat → Int → Int → List String
  | 0, _, _ => []
  | Nat.succ fuel, cur, endMs =>
    if cur ≤ endMs then
      getDateStringInUTC8 cur :: dateStringsLoop fuel (cur + msPerDay) endMs
    else []

/-- The list of date strings between two instants, stepping one day. -/
def dateStrings (startMs endMs : Int) : List String :=
  dateStringsLoop ((endMs - startMs).toNat / 86400000 + 1) startMs endMs

/-- The explicit-date default branch of `ExportManager.parseTimeRange`
(export.ts lines 97-122): a `start,end` comma range or a single date, both
days inclusive (`endDate.setHours(23,59,59,999)`), expanded to date strings.
The symbolic presets (`today`, `lastweek`, ...) of the earlier `switch`
cases are outside the claims and not modelled. -/
def parseTimeRangeExplicit (tz nowYear : Int) (timeRange : String) :
    Option (List String) :=
  if strContains timeRange "," then
    match jsSplit ',' timeRange with
    | startStr :: endStr :: _ =>
      match parseDateStr nowYear (jsTrim startStr),
          parseDateStr nowYear (jsTrim endStr) with
      | some (y1, m1, d1), some (y2, m2, d2) =>
        let startMs := localMidnightMs tz y1 m1 d1
        let endMs := localMidnightMs tz y2 m2 d2 + (msPerDay - 1)
        some (dateStrings startMs endMs)
      | _, _ => none
    | _ => none
  else
    match parseDateStr nowYear timeRange with
    | some (y, m, d) =>
      let startMs := localMidnightMs tz y m d
      some (dateStrings startMs (startMs + (msPerDay - 1)))
    | none => none

end Export

/-! ## Theorems -/

/-! ### Shared helper lemmas -/

theorem ofChars_data (s : String) : ofChars s.data = s := by
  cases s
  rfl

theorem map_eq_self_of {α : Type _} (f : α → α) (l : List α)
    (h : ∀ a ∈ l, f a = a) : l.map f = l :=
  (List.map_congr_left h).trans (List.map_id l)

theorem takeWhile_eq_nil_of_all {α : Type _} (p : α → Bool) (l : List α)
    (h : ∀ a ∈ l, p a = false) : l.takeWhile p = [] := by
  cases l with
  | nil => rfl
  | cons a t => simp [List.takeWhile_cons, h a (by simp)]

theorem dropWhile_eq_self_of_all {α : Type _} (p : α → Bool) (l : List α)
    (h : ∀ a ∈ l, p a = false) : l.dropWhile p = l := by
  cases l with
  | nil => rfl
  | cons a t => simp [List.dropWhile_cons, h a (by simp)]

theorem takeWhile_append_cons_of {α : Type _} (p : α → Bool) (l1 : List α)
    (b : α) (l2 : List α) (h1 : ∀ a ∈ l1, p a = true) (hb : p b = false) :
    (l1 ++ b :: l2).takeWhile p = l1 := by
  induction l1 with
  | nil => simp [List.takeWhile_cons, hb]
  | cons a t ih =>
    simp only [List.cons_append, List.takeWhile_cons, h1 a (by simp)]
    simp only [if_true]
    rw [ih (fun x hx => h1 x (by simp [hx]))]

namespace FileWriter

theorem chainRunAux_length (pending : Option String) (ops : List (Except String Unit)) :
    (chainRunAux pending ops).length = ops.length := by
  induction ops generalizing pending with
  | nil => rfl
  | cons op rest ih =>
    cases pending with
    | none => simp [chainRunAux, ih]
    | some e => simp [chainRunAux, ih]

theorem chainRun_length (ops : List (Except String Unit)) :
    (chainRun ops).length = ops.length := chainRunAux_length none ops

/-- Characterization of `chainRunAux`: before the first error every operation
executes and its caller sees its own outcome; from the first error on,
operations are skipped and callers see that first error. -/
theorem chainRunAux_get (ops : List (Except String Unit)) (pending : Option String)
    (i : Nat) (hi : i < ops.length) :
    (chainRunAux pending ops).get ⟨i, by rw [chainRunAux_length]; exact hi⟩ =
      match pending with
      | some e => { executed := false, result := .error e }
      | none =>
        match firstError (ops.take i) with
        | some e => { executed := false, result := .error e }
        | none => { executed := true, result := ops.get ⟨i, hi⟩ } := by
  induction ops generalizing pending i with
  | nil => exact absurd hi (by simp)
  | cons op rest ih =>
    cases pending with
    | some e =>
      cases i with
      | zero => rfl
      | succ j =>
        have hj : j < rest.length := by simpa using hi
        simpa [chainRunAux] using ih (some e) j hj
    | none =>
      cases i with
      | zero => simp [chainRunAux, firstError]
      | succ j =>
        have hj : j < rest.length := by simpa using hi
        cases op with
        | ok u =>
          have := ih none j hj
          simpa [chainRunAux, firstError, List.take_succ_cons] using this
        | error e =>
          have := ih (some e) j hj
          simpa [chainRunAux, firstError, List.take_succ_cons] using this

theorem updateLine_eq_self (parse : String → Option String) (msgId clean line : String)
    (h : lineMatches parse msgId line = false) :
    updateLine parse msgId clean line = line := by
  unfold lineMatches at h
  unfold updateLine
  by_cases ht : jsTrim line = ""
  · simp [ht]
  · rcases hp : parse line with _ | i
    · simp [ht, hp]
    · have h2 : ¬(i = msgId) := by
        intro he
        subst he
        simp [ht, hp] at h
      simp [ht, hp, h2]

/-- A line that matches is replaced by the new content. -/
theorem updateLine_eq_clean (parse : String → Option String) (msgId clean line : String)
    (h : lineMatches parse msgId line = true) :
    updateLine parse msgId clean line = clean := by
  unfold lineMatches at h
  simp only [Bool.and_eq_true, decide_eq_true_eq] at h
  unfold updateLine
  simp [h.1, h.2]

end FileWriter

/-! ### Claim theorems -/

/-- **C3** — counterexample.  The claim states that after one operation on a
key fails, every operation enqueued on that key after it still executes.  In
the promise chain of `SafeFileWriter.enqueueWrite` the `.catch` is attached
after `.then(operation)`, so an operation enqueued behind a failing one is
skipped: here the second operation of the batch does not execute (and its
caller receives the first operation's error). -/
theorem c3_counterexample :
    ((FileWriter.chainRun [Except.error "io", Except.ok ()]).get ⟨1, by decide⟩).executed
      = false := by decide

/-- **C3** — amended claim.  For a batch of operations enqueued on one key
before any settles: each operation before the first failing one executes and
its caller receives its own outcome; an I/O error fails that operation's
caller with its error; every operation enqueued after the failure is skipped
(not executed) and its caller receives that same first error — errors are
surfaced, never silently swallowed. -/
theorem c3_amended (ops : List (Except String Unit)) (i : Nat) (hi : i < ops.length) :
    (FileWriter.chainRun ops).get ⟨i, by rw [FileWriter.chainRun_length]; exact hi⟩ =
      match FileWriter.firstError (ops.take i) with
      | some e => { executed := false, result := .error e }
      | none => { executed := true, result := ops.get ⟨i, hi⟩ } := by
  simpa [FileWriter.chainRun] using FileWriter.chainRunAux_get ops none i hi

/-- **C3** — witness: the amended claim evaluated on the concrete batch
`[error "io", ok]` at index 1. -/
theorem c3_amended_witness :
    (FileWriter.chainRun [Except.error "io", Except.ok ()]).get
        ⟨1, by rw [FileWriter.chainRun_length]; decide⟩ =
      { executed := false, result := Except.error "io" } := by
  have h := c3_amended [Except.error "io", Except.ok ()] 1 (by decide)
  simpa using h

/-- **C5** — counterexample.  The claim states that `safeUpdate` with an id
that appears in the file replaces exactly one line — the first whose record
id matches — and leaves every other line unchanged.  The source maps the
replacement over ALL lines, so with the same `messageId` on two lines both
are rewritten: the second line is not left unchanged. -/
theorem c5_counterexample :
    FileWriter.safeUpdateLines FileWriter.extractMessageId "m1" "NEW"
        ["\x7b\x22messageId\x22:\x22m1\x22,\x22content\x22:\x22a\x22\x7d",
         "\x7b\x22messageId\x22:\x22m1\x22,\x22content\x22:\x22b\x22\x7d"] =
      ["NEW", "NEW"] ∧
    ("\x7b\x22messageId\x22:\x22m1\x22,\x22content\x22:\x22b\x22\x7d" : String) ≠ "NEW" :=
  ⟨by decide, by decide⟩

/-- **C5** — amended claim.  `updateRecord` replaces EVERY line whose record
id matches (and drops empty lines on rewrite); hence when the id occurs in
exactly one line, exactly that line is replaced and all other non-empty
lines are preserved in order, and when the id occurs in no line the new
record is appended after the existing lines, preserving their order. -/
theorem c5_amended :
    (∀ (parse : String → Option String) (msgId clean : String)
        (pre post : List String) (x : String),
      FileWriter.lineMatches parse msgId x = true →
      (∀ l ∈ pre, FileWriter.lineMatches parse msgId l = false) →
      (∀ l ∈ post, FileWriter.lineMatches parse msgId l = false) →
      clean ≠ "" →
      FileWriter.safeUpdateLines parse msgId clean (pre ++ x :: post) =
        pre.filter (fun l => l ≠ "") ++ clean :: post.filter (fun l => l ≠ "")) ∧
    (∀ (parse : String → Option String) (msgId clean : String) (lines : List String),
      (∀ l ∈ lines, FileWriter.lineMatches parse msgId l = false) →
      (∀ l ∈ lines, jsTrim l ≠ "") →
      clean ≠ "" →
      FileWriter.safeUpdateLines parse msgId clean lines = lines ++ [clean]) := by
  constructor
  · intro parse msgId clean pre post x hx hpre hpost hclean
    have hfound : (pre ++ x :: post).any (FileWriter.lineMatches parse msgId) = true := by
      simp [List.any_append, List.any_cons, hx]
    have hmap : (pre ++ x :: post).map (FileWriter.updateLine parse msgId clean) =
        pre ++ clean :: post := by
      rw [List.map_append, List.map_cons,
        FileWriter.updateLine_eq_clean parse msgId clean x hx,
        map_eq_self_of _ pre (fun l hl => FileWriter.updateLine_eq_self parse msgId clean l (hpre l hl)),
        map_eq_self_of _ post (fun l hl => FileWriter.updateLine_eq_self parse msgId clean l (hpost l hl))]
    unfold FileWriter.safeUpdateLines
    rw [hfound, hmap]
    simp only [if_true, List.filter_append, List.filter_cons]
    simp [hclean]
  · intro parse msgId clean lines hmatch htrim hclean
    have hfound : lines.any (FileWriter.lineMatches parse msgId) = false :=
      List.any_eq_false.mpr (fun l hl => by simp [hmatch l hl])
    have hmap : lines.map (FileWriter.updateLine parse msgId clean) = lines :=
      map_eq_self_of _ lines
        (fun l hl => FileWriter.updateLine_eq_self parse msgId clean l (hmatch l hl))
    have hins : FileWriter.insertAfterLastNonEmpty clean lines = lines ++ [clean] := by
      unfold FileWriter.insertAfterLastNonEmpty
      have hall : ∀ l ∈ lines.reverse, (decide (jsTrim l = "")) = false := by
        intro l hl
        simp [htrim l (List.mem_reverse.mp hl)]
      rw [takeWhile_eq_nil_of_all _ _ hall, dropWhile_eq_self_of_all _ _ hall]
      cases hrev : lines.reverse with
      | nil => simp
      | cons c t =>
        have : lines = (c :: t).reverse := by rw [← hrev, List.reverse_reverse]
        simp [this]
    have hne : ∀ l ∈ lines, l ≠ "" := by
      intro l hl he
      exact htrim l hl (by rw [he]; rfl)
    unfold FileWriter.safeUpdateLines
    rw [hfound, hmap]
    simp only [Bool.false_eq_true, if_false, hins]
    refine List.filter_eq_self.mpr ?_
    intro a ha
    rcases List.mem_append.mp ha with h | h
    · simpa using hne a h
    · simp at h
      simp [h, hclean]

/-- **C5** — witness: both amended cases at concrete files.  The unique
match `m1` is replaced in place between two non-matching lines; the absent
id `m9` is appended after the existing lines. -/
theorem c5_amended_witness :
    (FileWriter.lineMatches FileWriter.extractMessageId "m1"
        "\x7b\x22messageId\x22:\x22m1\x22,\x22content\x22:\x22a\x22\x7d" = true ∧
      FileWriter.safeUpdateLines FileWriter.extractMessageId "m1" "NEW"
          ["\x7b\x22messageId\x22:\x22m3\x22,\x22content\x22:\x22c\x22\x7d",
           "\x7b\x22messageId\x22:\x22m1\x22,\x22content\x22:\x22a\x22\x7d",
           "\x7b\x22messageId\x22:\x22m2\x22,\x22content\x22:\x22b\x22\x7d"] =
        ["\x7b\x22messageId\x22:\x22m3\x22,\x22content\x22:\x22c\x22\x7d", "NEW",
          "\x7b\x22messageId\x22:\x22m2\x22,\x22content\x22:\x22b\x22\x7d"]) ∧
    FileWriter.safeUpdateLines FileWriter.extractMessageId "m9" "NEW"
        ["\x7b\x22messageId\x22:\x22m3\x22,\x22content\x22:\x22c\x22\x7d"] =
      ["\x7b\x22messageId\x22:\x22m3\x22,\x22content\x22:\x22c\x22\x7d", "NEW"] := by
  refine ⟨⟨by decide, ?_⟩, ?_⟩
  · have h := c5_amended.1 FileWriter.extractMessageId "m1" "NEW"
      ["\x7b\x22messageId\x22:\x22m3\x22,\x22content\x22:\x22c\x22\x7d"]
      ["\x7b\x22messageId\x22:\x22m2\x22,\x22content\x22:\x22b\x22\x7d"]
      "\x7b\x22messageId\x22:\x22m1\x22,\x22content\x22:\x22a\x22\x7d"
      (by decide) (by decide) (by decide) (by decide)
    simpa using h
  · have h := c5_amended.2 FileWriter.extractMessageId "m9" "NEW"
      ["\x7b\x22messageId\x22:\x22m3\x22,\x22content\x22:\x22c\x22\x7d"]
      (by decide) (by decide) (by decide)
    simpa using h

/-- With enough fuel, the date-expansion loop produces exactly the UTC+8
date strings of the consecutive day instants from the start up to the end. -/
theorem dateStringsLoop_eq (n : Nat) (cur endMs : Int)
    (h : endMs < cur + n * msPerDay) :
    Export.dateStringsLoop n cur endMs =
      (List.range (if cur ≤ endMs then (endMs - cur).toNat / 86400000 + 1 else 0)).map
        (fun i : Nat => getDateStringInUTC8 (cur + (i : Int) * msPerDay)) := by
  induction n generalizing cur with
  | zero =>
    have hlt : ¬ cur ≤ endMs := by
      unfold msPerDay at h
      omega
    simp [Export.dateStringsLoop, hlt]
  | succ n ih =>
    have hloop : Export.dateStringsLoop (n + 1) cur endMs =
        if cur ≤ endMs then getDateStringInUTC8 cur ::
          Export.dateStringsLoop n (cur + msPerDay) endMs else [] := rfl
    by_cases hce : cur ≤ endMs
    · rw [hloop, if_pos hce, ih (cur + msPerDay) (by unfold msPerDay at h ⊢; omega),
        if_pos hce]
      by_cases hce2 : cur + msPerDay ≤ endMs
      · rw [if_pos hce2]
        have hT : (endMs - cur).toNat = (endMs - (cur + msPerDay)).toNat + 86400000 := by
          unfold msPerDay at hce2 ⊢
          omega
        have hdiv : (endMs - cur).toNat / 86400000 =
            (endMs - (cur + msPerDay)).toNat / 86400000 + 1 := by
          rw [hT, Nat.add_div_right _ (by norm_num)]
        rw [hdiv]
        conv_rhs => rw [List.range_succ_eq_map, List.map_cons, List.map_map]
        congr 1
        · norm_num
        · refine List.map_congr_left ?_
          intro i _
          simp only [Function.comp_apply]
          congr 1
          push_cast
          ring
      · rw [if_neg hce2]
        have hdiv0 : (endMs - cur).toNat / 86400000 = 0 := by
          refine Nat.div_eq_of_lt ?_
          unfold msPerDay at hce2
          omega
        rw [hdiv0]
        simp [List.range_succ]
    · rw [hloop, if_neg hce, if_neg hce]
      rfl

/-- **C7** — confirmed.  First conjunct: the spec's scenario —
`parseTimeRange` on `"2024-01-01,2024-01-03"` resolves to the inclusive
ordered date list (host timezone `Asia/Shanghai`, the plugin's deployment
target).  Second conjunct, the general law: for every pair of parsed civil
start/end dates, the source's expansion (start local midnight through end
`23:59:59.999`, one day per step) equals the spec-side
`specCalendarRange` — the inclusive, ordered list of calendar dates from
the start date to the end date. -/
theorem c7_resolve_comma_range :
    Export.parseTimeRangeExplicit 480 2024 "2024-01-01,2024-01-03" =
      some ["2024-01-01", "2024-01-02", "2024-01-03"] ∧
    (∀ y1 m1 d1 y2 m2 d2 : Int,
      Export.dateStrings (Export.localMidnightMs 480 y1 m1 d1)
          (Export.localMidnightMs 480 y2 m2 d2 + (msPerDay - 1)) =
        Export.specCalendarRange y1 m1 d1 y2 m2 d2) := by
  constructor
  · decide
  · intro y1 m1 d1 y2 m2 d2
    unfold Export.dateStrings Export.localMidnightMs Export.specCalendarRange
    dsimp only
    rw [dateStringsLoop_eq _ _ _ (by
      have h1 := Nat.div_add_mod (daysFromCivil y2 m2 d2 * msPerDay - 480 * 60000 +
        (msPerDay - 1) - (daysFromCivil y1 m1 d1 * msPerDay - 480 * 60000)).toNat 86400000
      have h2 := Nat.mod_lt (daysFromCivil y2 m2 d2 * msPerDay - 480 * 60000 +
        (msPerDay - 1) - (daysFromCivil y1 m1 d1 * msPerDay - 480 * 60000)).toNat
        (y := 86400000) (by norm_num)
      unfold msPerDay at h1 h2 ⊢
      omega)]
    have hcount : (if daysFromCivil y1 m1 d1 * msPerDay - 480 * 60000 ≤
          daysFromCivil y2 m2 d2 * msPerDay - 480 * 60000 + (msPerDay - 1) then
        (daysFromCivil y2 m2 d2 * msPerDay - 480 * 60000 + (msPerDay - 1) -
          (daysFromCivil y1 m1 d1 * msPerDay - 480 * 60000)).toNat / 86400000 + 1
      else 0) =
        (if daysFromCivil y1 m1 d1 ≤ daysFromCivil y2 m2 d2 then
          (daysFromCivil y2 m2 d2 - daysFromCivil y1 m1 d1).toNat + 1 else 0) := by
      by_cases hab : daysFromCivil y1 m1 d1 ≤ daysFromCivil y2 m2 d2
      · rw [if_pos hab, if_pos (by unfold msPerDay; omega)]
        have hT : (daysFromCivil y2 m2 d2 * msPerDay - 480 * 60000 + (msPerDay - 1) -
            (daysFromCivil y1 m1 d1 * msPerDay - 480 * 60000)).toNat =
            86399999 + 86400000 *
              (daysFromCivil y2 m2 d2 - daysFromCivil y1 m1 d1).toNat := by
          unfold msPerDay
          omega
        rw [hT, Nat.add_mul_div_left _ _ (by norm_num), Nat.div_eq_of_lt (by norm_num)]
        omega
      · rw [if_neg hab, if_neg (by unfold msPerDay; omega)]
    rw [hcount]
    refine List.map_congr_left ?_
    intro i _
    unfold getDateStringInUTC8
    refine congrArg _ ?_
    have harg : daysFromCivil y1 m1 d1 * msPerDay - 480 * 60000 + (i : Int) * msPerDay +
        8 * 3600 * 1000 = (daysFromCivil y1 m1 d1 + (i : Int)) * msPerDay := by
      unfold msPerDay
      ring
    rw [harg, Int.mul_fdiv_cancel _ (by unfold msPerDay; norm_num)]

/-- **C10** — confirmed.  A comma range whose end date precedes its start
date parses without error to the empty date list (the expansion loop never
runs when the end instant is before the start), and `exportChatData` on an
empty date list always takes the `availableDays === 0` branch — the
"no records found" failure — for every environment and group. -/
theorem c10_inverted_range :
    Export.parseTimeRangeExplicit 480 2024 "01-03,01-01" = some [] ∧
    (∀ (fuel : Nat) (cur endMs : Int), endMs < cur →
      Export.dateStringsLoop fuel cur endMs = []) ∧
    (∀ (env : Export.ExportEnv) (guildId : Option String),
      Export.exportCheck env guildId [] = Export.ExportDecision.noRecords) := by
  refine ⟨by decide, ?_, ?_⟩
  · intro fuel cur endMs h
    cases fuel with
    | zero => rfl
    | succ n => simp [Export.dateStringsLoop, not_le.mpr h]
  · intro env gid
    have hloc : Export.checkLocalFiles env gid [] = [] := rfl
    have hs3 : Export.checkS3Files env gid [] = [] := by
      unfold Export.checkS3Files
      split_ifs <;> rfl
    unfold Export.exportCheck
    rw [hloc, hs3]
    rfl

/-- **C10** — witness: the inner hypotheses of the amended-form conjuncts
discharged at concrete inputs. -/
theorem c10_inverted_range_witness :
    ((0 : Int) < 5 ∧ Export.dateStringsLoop 1 5 0 = []) ∧
    Export.exportCheck
        { dataFiles := [], s3Enabled := true, listSuccess := true, listing := [] }
        (some "123") [] = Export.ExportDecision.noRecords :=
  ⟨⟨by decide, c10_inverted_range.2.1 1 5 0 (by decide)⟩,
    c10_inverted_range.2.2
      { dataFiles := [], s3Enabled := true, listSuccess := true, listing := [] }
      (some "123")⟩

/-- The field updates of `createOrUpdateChatLogFileRecord` never change a
row's natural key, so `updateById` preserves every key count. -/
theorem keyCount_updateById (date : String) (gid : Option String)
    (db : List UploadState.ChatLogFileRecord) (id : Nat)
    (upd : UploadState.ChatLogFileRecord → UploadState.ChatLogFileRecord)
    (hpres : ∀ r, UploadState.keyMatches date gid (upd r) =
      UploadState.keyMatches date gid r) :
    UploadState.keyCount date gid (UploadState.updateById db id upd) =
      UploadState.keyCount date gid db := by
  unfold UploadState.keyCount UploadState.updateById
  rw [← List.countP_eq_length_filter, ← List.countP_eq_length_filter, List.countP_map]
  refine List.countP_congr ?_
  intro r _
  show UploadState.keyMatches date gid (if r.id = id then upd r else r) = true ↔ _
  by_cases hid : r.id = id
  · rw [if_pos hid, hpres r]
  · rw [if_neg hid]

/-- **C4** — confirmed.  Upload-state writes upsert by the natural key
`(date, guildId)`: starting from a table with at most one row per key,
`createOrUpdateChatLogFileRecord` (a) preserves that invariant, (b) never
inserts when a row for the key already exists (the table length is
unchanged), and (c) when the key's row has status `uploaded`, the daily
upload pass skips the partition's file entirely — no second row and no
second upload. -/
theorem c4_upsert_unique_and_idempotent (now dateTs : Int)
    (groupKey filePath s3Key : String) (fileSize recordCount : Nat)
    (s3Url : Option String) (status : UploadState.Status) (error : Option String)
    (db : List UploadState.ChatLogFileRecord) (hasRecords : String → Bool)
    (files : List UploadState.LocalFile) (h : UploadState.noDupKeys db) :
    UploadState.noDupKeys (UploadState.createOrUpdateChatLogFileRecord now dateTs
      groupKey filePath s3Key fileSize recordCount s3Url status error db) ∧
    ((UploadState.getRecord (getDateStringInUTC8 dateTs)
        (if groupKey = "private" then none else some groupKey) db).isSome →
      (UploadState.createOrUpdateChatLogFileRecord now dateTs groupKey filePath s3Key
        fileSize recordCount s3Url status error db).length = db.length) ∧
    (UploadState.checkUploaded (getDateStringInUTC8 dateTs)
        (if groupKey = "private" then none else some groupKey) db = true →
      ∀ e ∈ UploadState.prepareFilesToUpload dateTs hasRecords files db,
        e.groupKey ≠ groupKey) := by
  refine ⟨?_, ?_, ?_⟩
  · unfold UploadState.createOrUpdateChatLogFileRecord
    cases her : UploadState.getRecord (getDateStringInUTC8 dateTs)
        (if groupKey = "private" then none else some groupKey) db with
    | some existing =>
      simp only [her]
      intro date2 gid2
      refine le_trans (le_of_eq (keyCount_updateById date2 gid2 db existing.id _ ?_))
        (h date2 gid2)
      intro r
      rfl
    | none =>
      simp only [her]
      intro date2 gid2
      unfold UploadState.keyCount
      rw [List.filter_append, List.length_append]
      by_cases hk : UploadState.keyMatches date2 gid2
          { id := UploadState.nextId db,
            guildId := if groupKey = "private" then none else some groupKey,
            date := getDateStringInUTC8 dateTs, filePath := filePath,
            s3Key := s3Key, s3Url := s3Url, fileSize := fileSize,
            recordCount := recordCount,
            uploadedAt := if status = UploadState.Status.uploaded then now else 0,
            status := status, error := error } = true
      · have hkey : date2 = getDateStringInUTC8 dateTs ∧
            gid2 = (if groupKey = "private" then none else some groupKey) := by
          unfold UploadState.keyMatches at hk
          simp only [Bool.and_eq_true, decide_eq_true_eq] at hk
          exact ⟨hk.1.symm, hk.2.symm⟩
        have hempty : db.filter (UploadState.keyMatches date2 gid2) = [] := by
          rw [hkey.1, hkey.2]
          exact List.head?_eq_none_iff.mp her
        simp [hempty, List.filter_cons, hk]
      · have h1 := h date2 gid2
        unfold UploadState.keyCount at h1
        simp [List.filter_cons, hk]
        omega
  · intro hsome
    unfold UploadState.createOrUpdateChatLogFileRecord
    rcases Option.isSome_iff_exists.mp hsome with ⟨existing, her⟩
    simp only [her]
    exact List.length_map db _
  · intro hup e he
    unfold UploadState.prepareFilesToUpload at he
    rw [List.mem_filterMap] at he
    obtain ⟨a, _, hfa⟩ := he
    dsimp only at hfa
    intro heq
    by_cases hs : a.statOk = false
    · rw [if_pos hs] at hfa
      exact Option.noConfusion hfa
    · rw [if_neg hs] at hfa
      by_cases hz : a.size = 0
      · rw [if_pos hz] at hfa
        exact Option.noConfusion hfa
      · rw [if_neg hz] at hfa
        by_cases hc : UploadState.checkIfDateGroupAlreadyUploaded dateTs
            (replaceFirst a.name ("_" ++ getDateStringInUTC8 dateTs ++ ".jsonl"))
            (hasRecords (replaceFirst a.name ("_" ++ getDateStringInUTC8 dateTs ++ ".jsonl")))
            db = true
        · rw [if_pos hc] at hfa
          exact Option.noConfusion hfa
        · rw [if_neg hc] at hfa
          have hgk : e.groupKey = replaceFirst a.name
              ("_" ++ getDateStringInUTC8 dateTs ++ ".jsonl") := by
            cases hfa
            rfl
          apply hc
          rw [hgk.symm.trans heq]
          unfold UploadState.checkIfDateGroupAlreadyUploaded
          simp [hup]

/-- **C4** — witness: a table holding one `uploaded` row for
`(g1, 2024-01-01)` satisfies the uniqueness invariant, and re-running the
upsert keeps it; the daily pass skips `g1`'s file. -/
theorem c4_upsert_witness :
    UploadState.noDupKeys
      [{ id := 1, guildId := some "g1", date := "2024-01-01", filePath := "data/f",
         s3Key := "k", s3Url := some "u", fileSize := 5, recordCount := 2,
         uploadedAt := 7, status := UploadState.Status.uploaded, error := none }] ∧
    UploadState.noDupKeys (UploadState.createOrUpdateChatLogFileRecord 8 1704067200000
      "g1" "data/f" "k" 5 2 (some "u") UploadState.Status.uploaded none
      [{ id := 1, guildId := some "g1", date := "2024-01-01", filePath := "data/f",
         s3Key := "k", s3Url := some "u", fileSize := 5, recordCount := 2,
         uploadedAt := 7, status := UploadState.Status.uploaded, error := none }]) := by
  have hinv : UploadState.noDupKeys
      [{ id := 1, guildId := some "g1", date := "2024-01-01", filePath := "data/f",
         s3Key := "k", s3Url := some "u", fileSize := 5, recordCount := 2,
         uploadedAt := 7, status := UploadState.Status.uploaded, error := none }] := by
    intro date gid
    exact List.length_filter_le _ _
  exact ⟨hinv,
    (c4_upsert_unique_and_idempotent 8 1704067200000 "g1" "data/f" "k" 5 2
      (some "u") UploadState.Status.uploaded none _ (fun _ => true) [] hinv).1⟩

/-- **C2** — counterexample.  The claim states the retention sweep never
deletes a `.jsonl` file whose upload-state entry is not `uploaded`.  The
hourly sweep `executeLocalFileCleanup` consults only the file modification
time: here a file whose state-store status is `pending` is deleted. -/
theorem c2_counterexample :
    UploadState.executeLocalFileCleanup 3 864000000
        (fun _ => some UploadState.Status.pending)
        [{ name := "g1_2024-01-01.jsonl", size := 5, mtime := 0, statOk := true }] =
      ["g1_2024-01-01.jsonl"] ∧
    (fun (_ : String) => some UploadState.Status.pending) "g1_2024-01-01.jsonl" ≠
      some UploadState.Status.uploaded :=
  ⟨by decide, by decide⟩

/-- The deletion loop of `executeLocalFileCleanup` deletes exactly the
`.jsonl` files whose `stat` succeeds and whose mtime is at most the cutoff. -/
theorem cleanupLoop_eq_filter (cutoff : Int) (files : List UploadState.LocalFile) :
    UploadState.cleanupLoop cutoff files =
      (files.filter (fun f => strEndsWith f.name ".jsonl" && f.statOk &&
        decide (f.mtime ≤ cutoff))).map (fun f => f.name) := by
  induction files with
  | nil => rfl
  | cons f rest ih =>
    cases h1 : strEndsWith f.name ".jsonl" <;> cases h2 : f.statOk <;>
      by_cases h3 : f.mtime ≤ cutoff <;>
        simp [UploadState.cleanupLoop, h1, h2, h3, ih]

/-- **C2** — amended claim.  The hourly retention sweep deletes every local
`.jsonl` file older than the retention window based on modification time
alone; it never consults the upload-state store, so its result is identical
under any two upload-state assignments (only the per-upload
`handleFileRetention` path, which runs just after a successful upload, is
implicitly restricted to uploaded files). -/
theorem c2_amended (retentionDays now : Int)
    (st1 st2 : String → Option UploadState.Status)
    (files : List UploadState.LocalFile) :
    UploadState.executeLocalFileCleanup retentionDays now st1 files =
      UploadState.executeLocalFileCleanup retentionDays now st2 files ∧
    UploadState.executeLocalFileCleanup retentionDays now st1 files =
      (if retentionDays ≤ 0 then []
       else (files.filter (fun f => strEndsWith f.name ".jsonl" && f.statOk &&
         decide (f.mtime ≤ now - retentionDays * msPerDay))).map (fun f => f.name)) := by
  refine ⟨rfl, ?_⟩
  unfold UploadState.executeLocalFileCleanup
  split_ifs
  · rfl
  · exact cleanupLoop_eq_filter _ _

/-- Destructuring of a `\d{4}-\d{2}-\d{2}` date string. -/
theorem dateShape_data (s : String) (hd : Export.dateShape s = true) :
    ∃ a b c d2 e f g h, s.data = [a, b, c, d2, '-', e, f, '-', g, h] ∧
      (a.isDigit && b.isDigit && c.isDigit && d2.isDigit &&
        e.isDigit && f.isDigit && g.isDigit && h.isDigit) = true := by
  unfold Export.dateShape at hd
  split at hd
  · next a b c d2 e f g h heq => exact ⟨a, b, c, d2, e, f, g, h, heq, hd⟩
  · exact absurd hd (by simp)

theorem isDigit_ne_slash (c : Char) (h : c.isDigit = true) : c ≠ '/' := by
  intro hc
  subst hc
  exact absurd h (by decide)

/-- A date string contains no `/`. -/
theorem dateShape_no_slash (s : String) (hd : Export.dateShape s = true) :
    ∀ c ∈ s.data, c ≠ '/' := by
  obtain ⟨a, b, c, d2, e, f, g, h, heq, hdig⟩ := dateShape_data s hd
  simp only [Bool.and_eq_true] at hdig
  intro x hx
  rw [heq] at hx
  simp only [List.mem_cons, List.not_mem_nil, or_false] at hx
  rcases hx with rfl | rfl | rfl | rfl | rfl | rfl | rfl | rfl | rfl | rfl
  · exact isDigit_ne_slash _ hdig.1.1.1.1.1.1.1
  · exact isDigit_ne_slash _ hdig.1.1.1.1.1.1.2
  · exact isDigit_ne_slash _ hdig.1.1.1.1.1.2
  · exact isDigit_ne_slash _ hdig.1.1.1.1.2
  · decide
  · exact isDigit_ne_slash _ hdig.1.1.1.2
  · exact isDigit_ne_slash _ hdig.1.1.2
  · decide
  · exact isDigit_ne_slash _ hdig.1.2
  · exact isDigit_ne_slash _ hdig.2

/-- The first-occurrence scan of `chat-logs\/(\d{4}-\d{2}-\d{2})\//` matches
at position 0 of a canonical `chat-logs/{date}/...` key and captures the
date. -/
theorem scanS3DateAux_head (d : String) (tail : List Char)
    (hd : Export.dateShape d = true) :
    Export.scanS3DateAux ("chat-logs/".data ++ (d.data ++ '/' :: tail)) = some d := by
  obtain ⟨a, b, c, d2, e, f, g, h, hdata, hdig⟩ := dateShape_data d hd
  rw [hdata]
  have h1 : Export.s3MatchAt ('c' :: 'h' :: 'a' :: 't' :: '-' :: 'l' :: 'o' :: 'g' ::
      's' :: '/' :: a :: b :: c :: d2 :: '-' :: e :: f :: '-' :: g :: h :: '/' :: tail) =
      some (ofChars [a, b, c, d2, '-', e, f, '-', g, h]) := by
    show (if (a.isDigit && b.isDigit && c.isDigit && d2.isDigit &&
        e.isDigit && f.isDigit && g.isDigit && h.isDigit) = true then
      some (ofChars [a, b, c, d2, '-', e, f, '-', g, h]) else none) = _
    rw [if_pos hdig]
  have h2 : ofChars [a, b, c, d2, '-', e, f, '-', g, h] = d := by
    rw [← hdata]
    exact ofChars_data d
  show Export.scanS3DateAux ('c' :: 'h' :: 'a' :: 't' :: '-' :: 'l' :: 'o' :: 'g' ::
    's' :: '/' :: a :: b :: c :: d2 :: '-' :: e :: f :: '-' :: g :: h :: '/' :: tail) = some d
  unfold Export.scanS3DateAux
  rw [h1, h2]

/-- `path.basename` of `data/<name>` is `<name>` when the name has no `/`. -/
theorem basename_data_dir (r : String) (hr : ∀ c ∈ r.data, c ≠ '/') :
    Export.basename ("data/" ++ r) = r := by
  unfold Export.basename
  rw [String.data_append, List.reverse_append]
  have hrev : ("data/".data).reverse = '/' :: ['a', 't', 'a', 'd'] := rfl
  rw [hrev, takeWhile_append_cons_of _ _ _ _ (fun x hx => by
      simpa using hr x (List.mem_reverse.mp hx)) (by decide),
    List.reverse_reverse]
  exact ofChars_data r

/-- The local-file-name regex captures exactly the date from a canonical
`{groupKey}_{date}.jsonl` name. -/
theorem extractLocalDate_canonical (g d : String) (hlen : 0 < d.data.length) :
    Export.extractLocalDate g (Export.localFileName g d) = some d := by
  unfold Export.extractLocalDate Export.localFileName
  have h6 : (".jsonl" : String).data.length = 6 := rfl
  have hdata : (g ++ "_" ++ d ++ ".jsonl").data =
      (g ++ "_").data ++ (d.data ++ ".jsonl".data) := by
    simp [String.data_append, List.append_assoc]
  have hdata2 : (g ++ "_" ++ d ++ ".jsonl").data =
      ((g ++ "_").data ++ d.data) ++ ".jsonl".data := by
    simp [String.data_append, List.append_assoc]
  have hpre : strStartsWith (g ++ "_" ++ d ++ ".jsonl") (g ++ "_") = true := by
    unfold strStartsWith
    rw [hdata]
    exact List.isPrefixOf_iff_prefix.mpr (List.prefix_append _ _)
  have hsuf : strEndsWith (g ++ "_" ++ d ++ ".jsonl") ".jsonl" = true := by
    unfold strEndsWith
    rw [hdata2]
    exact List.isSuffixOf_iff_suffix.mpr (List.suffix_append _ _)
  have hlt : (g ++ "_").data.length + 6 < (g ++ "_" ++ d ++ ".jsonl").data.length := by
    rw [hdata, List.length_append, List.length_append, h6]
    omega
  rw [if_pos (by
    simp only [hpre, hsuf, Bool.true_and, Bool.and_true, decide_eq_true_eq]
    exact hlt)]
  have hdrop : (g ++ "_" ++ d ++ ".jsonl").data.drop (g ++ "_").data.length =
      d.data ++ ".jsonl".data := by
    rw [hdata]
    exact List.drop_left _ _
  have harith : (g ++ "_" ++ d ++ ".jsonl").data.length - (g ++ "_").data.length - 6 =
      d.data.length := by
    rw [hdata, List.length_append, List.length_append, h6]
    omega
  rw [hdrop, harith, List.take_left, ofChars_data]

/-- **C6** — counterexample.  The claim states that when one partition's
upload exceeds the configured deadline, that partition's upload-state record
ends in status `failed` with a non-empty error.  In `executeAutoUpload` the
60-second deadline is a `Promise.race` whose timeout REJECTS; the rejection
lands in the task's `catch`, which only logs and returns — no state-store
write happens.  Here partition `g1` hits the deadline and ends with NO
record at all (while `g2` still reaches `uploaded` and the summary counts
1 of 2 successes). -/
theorem c6_counterexample :
    UploadState.getRecord "2024-01-01" (some "g1")
        (UploadState.executeAutoUpload 1704153600000 1704067200000 (fun _ => true)
          (fun _ => 5) (fun _ => 2)
          (fun g => if g = "g1" then UploadState.UploadOutcome.deadline
            else UploadState.UploadOutcome.resolved true none (some "u"))
          [{ name := "g1_2024-01-01.jsonl", size := 5, mtime := 0, statOk := true },
           { name := "g2_2024-01-01.jsonl", size := 7, mtime := 0, statOk := true }]
          []).1 = none ∧
    (UploadState.getRecord "2024-01-01" (some "g2")
        (UploadState.executeAutoUpload 1704153600000 1704067200000 (fun _ => true)
          (fun _ => 5) (fun _ => 2)
          (fun g => if g = "g1" then UploadState.UploadOutcome.deadline
            else UploadState.UploadOutcome.resolved true none (some "u"))
          [{ name := "g1_2024-01-01.jsonl", size := 5, mtime := 0, statOk := true },
           { name := "g2_2024-01-01.jsonl", size := 7, mtime := 0, statOk := true }]
          []).1).map (fun r => r.status) = some UploadState.Status.uploaded ∧
    (UploadState.executeAutoUpload 1704153600000 1704067200000 (fun _ => true)
          (fun _ => 5) (fun _ => 2)
          (fun g => if g = "g1" then UploadState.UploadOutcome.deadline
            else UploadState.UploadOutcome.resolved true none (some "u"))
          [{ name := "g1_2024-01-01.jsonl", size := 5, mtime := 0, statOk := true },
           { name := "g2_2024-01-01.jsonl", size := 7, mtime := 0, statOk := true }]
          []).2 = (1, 2) :=
  ⟨by decide, by decide, by decide⟩

/-- **C6** — amended claim.  In a scheduler run over two partitions where
the first partition's task hits the 60-second deadline and the second's
upload resolves successfully: the deadline rejection is caught and counted
as a failure in the summary, but NO upload-state record is written for that
partition (it still has none afterwards); the other partition's upload
completes independently and its record reaches `uploaded`; the summary
reports 1 success out of 2. -/
theorem c6_amended (now dateTs : Int) (statSize recCount : String → Nat)
    (outcomes : String → UploadState.UploadOutcome)
    (e1 e2 : UploadState.UploadEntry) (db : List UploadState.ChatLogFileRecord)
    (url : Option String)
    (h1 : outcomes e1.groupKey = UploadState.UploadOutcome.deadline)
    (h2 : outcomes e2.groupKey = UploadState.UploadOutcome.resolved true none url)
    (hne : e1.groupKey ≠ e2.groupKey)
    (hp2 : e2.groupKey ≠ "private")
    (hr1 : UploadState.getRecord (getDateStringInUTC8 dateTs) (some e1.groupKey) db = none)
    (hr2 : UploadState.getRecord (getDateStringInUTC8 dateTs) (some e2.groupKey) db = none) :
    UploadState.getRecord (getDateStringInUTC8 dateTs) (some e1.groupKey)
        (UploadState.runUploads now dateTs statSize recCount outcomes [e1, e2] db).1 = none ∧
    (∃ rec, UploadState.getRecord (getDateStringInUTC8 dateTs) (some e2.groupKey)
          (UploadState.runUploads now dateTs statSize recCount outcomes [e1, e2] db).1 =
        some rec ∧ rec.status = UploadState.Status.uploaded) ∧
    (UploadState.runUploads now dateTs statSize recCount outcomes [e1, e2] db).2 = (1, 2) := by
  have hrun : UploadState.runUploads now dateTs statSize recCount outcomes [e1, e2] db =
      (UploadState.createOrUpdateChatLogFileRecord now dateTs e2.groupKey e2.filePath
        e2.key (statSize e2.filePath) (recCount e2.filePath) url
        UploadState.Status.uploaded none db, 1, 2) := by
    unfold UploadState.runUploads UploadState.runUploads UploadState.runUploads
    rw [h1, h2]
    rfl
  have hdb2 : UploadState.createOrUpdateChatLogFileRecord now dateTs e2.groupKey
      e2.filePath e2.key (statSize e2.filePath) (recCount e2.filePath) url
      UploadState.Status.uploaded none db =
      db ++ [{ id := UploadState.nextId db, guildId := some e2.groupKey,
               date := getDateStringInUTC8 dateTs, filePath := e2.filePath,
               s3Key := e2.key, s3Url := url, fileSize := statSize e2.filePath,
               recordCount := recCount e2.filePath, uploadedAt := now,
               status := UploadState.Status.uploaded, error := none }] := by
    unfold UploadState.createOrUpdateChatLogFileRecord
    rw [if_neg hp2]
    dsimp only
    rw [hr2]
    simp
  have hfilter1 : db.filter (UploadState.keyMatches (getDateStringInUTC8 dateTs)
      (some e1.groupKey)) = [] := List.head?_eq_none_iff.mp hr1
  have hfilter2 : db.filter (UploadState.keyMatches (getDateStringInUTC8 dateTs)
      (some e2.groupKey)) = [] := List.head?_eq_none_iff.mp hr2
  rw [hrun]
  refine ⟨?_, ?_, rfl⟩
  · show UploadState.getRecord _ _ _ = none
    rw [hdb2]
    unfold UploadState.getRecord
    rw [List.filter_append, hfilter1]
    have hnk : UploadState.keyMatches (getDateStringInUTC8 dateTs) (some e1.groupKey)
        { id := UploadState.nextId db, guildId := some e2.groupKey,
          date := getDateStringInUTC8 dateTs, filePath := e2.filePath,
          s3Key := e2.key, s3Url := url, fileSize := statSize e2.filePath,
          recordCount := recCount e2.filePath, uploadedAt := now,
          status := UploadState.Status.uploaded, error := none } = false := by
      unfold UploadState.keyMatches
      simp
      exact fun h => hne h.symm
    simp [List.filter_cons, hnk]
  · rw [hdb2]
    have hget : UploadState.getRecord (getDateStringInUTC8 dateTs) (some e2.groupKey)
        (db ++
          ({ id := UploadState.nextId db, guildId := some e2.groupKey,
             date := getDateStringInUTC8 dateTs, filePath := e2.filePath,
             s3Key := e2.key, s3Url := url, fileSize := statSize e2.filePath,
             recordCount := recCount e2.filePath, uploadedAt := now,
             status := UploadState.Status.uploaded,
             error := none } : UploadState.ChatLogFileRecord) :: []) =
        some
          { id := UploadState.nextId db, guildId := some e2.groupKey,
            date := getDateStringInUTC8 dateTs, filePath := e2.filePath,
            s3Key := e2.key, s3Url := url, fileSize := statSize e2.filePath,
            recordCount := recCount e2.filePath, uploadedAt := now,
            status := UploadState.Status.uploaded, error := none } := by
      unfold UploadState.getRecord
      rw [List.filter_append, hfilter2]
      have hk : UploadState.keyMatches (getDateStringInUTC8 dateTs) (some e2.groupKey)
          { id := UploadState.nextId db, guildId := some e2.groupKey,
            date := getDateStringInUTC8 dateTs, filePath := e2.filePath,
            s3Key := e2.key, s3Url := url, fileSize := statSize e2.filePath,
            recordCount := recCount e2.filePath, uploadedAt := now,
            status := UploadState.Status.uploaded, error := none } = true := by
        unfold UploadState.keyMatches
        simp
      simp [List.filter_cons, hk]
    exact ⟨_, hget, rfl⟩

/-- **C6** — witness: the amended claim at a concrete two-partition run on
an empty table. -/
theorem c6_amended_witness :
    UploadState.getRecord "2024-01-01" (some "g1")
        (UploadState.runUploads 1704153600000 1704067200000 (fun _ => 5) (fun _ => 2)
          (fun g => if g = "g1" then UploadState.UploadOutcome.deadline
            else UploadState.UploadOutcome.resolved true none (some "u"))
          [{ filePath := "data/g1_2024-01-01.jsonl", key := "k1", groupKey := "g1" },
           { filePath := "data/g2_2024-01-01.jsonl", key := "k2", groupKey := "g2" }]
          []).1 = none ∧
    (∃ rec, UploadState.getRecord "2024-01-01" (some "g2")
        (UploadState.runUploads 1704153600000 1704067200000 (fun _ => 5) (fun _ => 2)
          (fun g => if g = "g1" then UploadState.UploadOutcome.deadline
            else UploadState.UploadOutcome.resolved true none (some "u"))
          [{ filePath := "data/g1_2024-01-01.jsonl", key := "k1", groupKey := "g1" },
           { filePath := "data/g2_2024-01-01.jsonl", key := "k2", groupKey := "g2" }]
          []).1 = some rec ∧ rec.status = UploadState.Status.uploaded) := by
  have h := c6_amended 1704153600000 1704067200000 (fun _ => 5) (fun _ => 2)
    (fun g => if g = "g1" then UploadState.UploadOutcome.deadline
      else UploadState.UploadOutcome.resolved true none (some "u"))
    { filePath := "data/g1_2024-01-01.jsonl", key := "k1", groupKey := "g1" }
    { filePath := "data/g2_2024-01-01.jsonl", key := "k2", groupKey := "g2" }
    [] (some "u") (by decide) (by decide) (by decide) (by decide) rfl rfl
  have hds : getDateStringInUTC8 1704067200000 = "2024-01-01" := by decide
  rw [hds] at h
  exact ⟨h.1, h.2.1⟩

/-- A date string has exactly ten characters. -/
theorem dateShape_length (s : String) (hd : Export.dateShape s = true) :
    s.data.length = 10 := by
  obtain ⟨a, b, c, d2, e, f, g, h, heq, _⟩ := dateShape_data s hd
  rw [heq]
  rfl

/-- A canonical partition file name contains no `/` when its group key does
not. -/
theorem localFileName_no_slash (g d : String) (hg : ∀ c ∈ g.data, c ≠ '/')
    (hd : Export.dateShape d = true) :
    ∀ c ∈ (Export.localFileName g d).data, c ≠ '/' := by
  intro c hc
  unfold Export.localFileName at hc
  simp only [String.data_append, List.mem_append] at hc
  rcases hc with ((hc | hc) | hc) | hc
  · exact hg c hc
  · simp only [List.mem_cons, List.not_mem_nil, or_false] at hc
    subst hc
    decide
  · exact dateShape_no_slash d hd c hc
  · simp only [List.mem_cons, List.not_mem_nil, or_false] at hc
    rcases hc with rfl | rfl | rfl | rfl | rfl | rfl <;> decide

/-- **C9** — counterexample.  The claim states that two invocations of the
key-generation functions with identical arguments produce the identical key.
`generateImageKey` reads `Date.now()` inside its body and embeds it in both
the date segment and the object name, so the same arguments at two different
instants yield different keys. -/
theorem c9_counterexample :
    S3Keys.generateImageKey "m1" "https://example.com/a.png" none 0 1000 ≠
      S3Keys.generateImageKey "m1" "https://example.com/a.png" none 0 2000 := by
  decide

/-- **C9** — amended claim.  `generateChatLogKey` is a pure function of its
`(date, guildId)` arguments — it reads no ambient clock — and produces
`chat-logs/{date}/{partition}_{timestamp}.json`, from which the export
engine's scan re-derives exactly the date segment with no side index.  The
media-key generators (`generateImageKey`, `generateFileKey`,
`generateVideoKey`) additionally embed the wall clock at invocation time, so
they are deterministic only in (arguments, clock). -/
theorem c9_amended (dateTs : Int) (g : String)
    (hshape : Export.dateShape (getDateStringInUTC8 dateTs) = true) :
    Export.extractS3Date (S3Keys.generateChatLogKey dateTs (some g)) =
      some (getDateStringInUTC8 dateTs) := by
  unfold S3Keys.generateChatLogKey Export.extractS3Date
  have hkdata : ("chat-logs/" ++ getDateStringInUTC8 dateTs ++ "/guild_" ++ g ++ "_" ++
      toString dateTs ++ ".json").data =
      "chat-logs/".data ++ ((getDateStringInUTC8 dateTs).data ++ '/' ::
        ("guild_" ++ g ++ "_" ++ toString dateTs ++ ".json").data) := by
    simp [String.data_append, List.append_assoc]
  rw [hkdata]
  exact scanS3DateAux_head _ _ hshape

/-- **C9** — witness: the amended claim at a concrete chat-log key. -/
theorem c9_amended_witness :
    Export.dateShape (getDateStringInUTC8 1704067200000) = true ∧
    Export.extractS3Date (S3Keys.generateChatLogKey 1704067200000 (some "123")) =
      some (getDateStringInUTC8 1704067200000) :=
  ⟨by decide, c9_amended 1704067200000 "123" (by decide)⟩

/-- **C8** — confirmed.  For every export in which a requested date has a
local partition file, the download-selection step of `exportChatData` never
passes a remote key for that date to the download: every date with a local
file is collected into `localDateStrings`, and any `chat-logs/{date}/...`
key with that date is filtered out of the S3 files to download. -/
theorem c8_local_dates_never_downloaded (env : Export.ExportEnv)
    (guildId : Option String) (dates : List String) (d rest : String)
    (lf dl : List String)
    (hd : Export.dateShape d = true)
    (hgk : ∀ c ∈ (Export.exportGroupKey guildId).data, c ≠ '/')
    (hdates : d ∈ dates)
    (hlocal : Export.localFileName (Export.exportGroupKey guildId) d ∈ env.dataFiles)
    (hdec : Export.exportCheck env guildId dates = Export.ExportDecision.proceed lf dl) :
    ("chat-logs/" ++ d ++ "/" ++ rest) ∉ dl := by
  intro hmem
  unfold Export.exportCheck at hdec
  dsimp only at hdec
  by_cases h0 : (Export.checkLocalFiles env guildId dates).length +
      (Export.checkS3Files env guildId dates).length = 0
  · rw [if_pos h0] at hdec
    exact absurd hdec (by simp)
  rw [if_neg h0] at hdec
  by_cases h1 : (Export.checkLocalFiles env guildId dates).length +
      (Export.checkS3Files env guildId dates).length < dates.length
  · rw [if_pos h1] at hdec
    exact absurd hdec (by simp)
  rw [if_neg h1] at hdec
  rw [Export.ExportDecision.proceed.injEq] at hdec
  obtain ⟨hlf, hdl⟩ := hdec
  rw [← hdl, List.mem_filter] at hmem
  obtain ⟨hmemS3, hpred⟩ := hmem
  have hkey : Export.extractS3Date ("chat-logs/" ++ d ++ "/" ++ rest) = some d := by
    unfold Export.extractS3Date
    have hkdata : ("chat-logs/" ++ d ++ "/" ++ rest).data =
        "chat-logs/".data ++ (d.data ++ '/' :: rest.data) := by
      simp [String.data_append, List.append_assoc]
    rw [hkdata]
    exact scanS3DateAux_head d rest.data hd
  rw [hkey] at hpred
  simp only [Bool.not_eq_true'] at hpred
  have hpath : ("data/" ++ Export.localFileName (Export.exportGroupKey guildId) d) ∈
      Export.checkLocalFiles env guildId dates := by
    unfold Export.checkLocalFiles
    dsimp only
    rw [List.mem_filterMap]
    refine ⟨d, hdates, ?_⟩
    rw [if_pos (List.any_eq_true.mpr ⟨_, hlocal, by simp⟩)]
  have hmemLds : d ∈ (Export.checkLocalFiles env guildId dates).filterMap
      (fun fp => Export.extractLocalDate (Export.exportGroupKey guildId)
        (Export.basename fp)) := by
    rw [List.mem_filterMap]
    refine ⟨_, hpath, ?_⟩
    rw [basename_data_dir _ (localFileName_no_slash _ _ hgk hd)]
    refine extractLocalDate_canonical _ d ?_
    rw [dateShape_length d hd]
    decide
  have hfalse := List.any_eq_false.mp hpred d hmemLds
  simp at hfalse

/-- **C8** — witness: a concrete export where `2024-01-01` is available both
locally and remotely; the decision proceeds and downloads nothing, so in
particular not the remote copy of that date. -/
theorem c8_witness :
    Export.exportCheck
        { dataFiles := ["123_2024-01-01.jsonl"], s3Enabled := true,
          listSuccess := true,
          listing := ["chat-logs/2024-01-01/guild_123_1704067200000.json"] }
        (some "123") ["2024-01-01"] =
      Export.ExportDecision.proceed ["data/123_2024-01-01.jsonl"] [] ∧
    ("chat-logs/" ++ "2024-01-01" ++ "/" ++ "guild_123_1704067200000.json") ∉
      ([] : List String) := by
  refine ⟨by decide, ?_⟩
  exact c8_local_dates_never_downloaded
    { dataFiles := ["123_2024-01-01.jsonl"], s3Enabled := true,
      listSuccess := true,
      listing := ["chat-logs/2024-01-01/guild_123_1704067200000.json"] }
    (some "123") ["2024-01-01"] "2024-01-01" "guild_123_1704067200000.json"
    ["data/123_2024-01-01.jsonl"] []
    (by decide) (by decide) (by decide) (by decide) (by decide)

/-- **C1** — the claim is right and the code is wrong (code bug).  The
completeness check computes `availableDays = localFiles.length +
s3Files.length`, which counts a date available both locally and remotely
twice.  Failing input: dates `2024-01-01, 2024-01-02`, where `2024-01-01`
has both a local file and a remote object and `2024-01-02` has neither.
The check sees `availableDays = 2 = totalDays` and the export proceeds with
only `2024-01-01`'s data — a partial export, which the source's own readme
("数据不完整，拒绝部分导出") and the spec both forbid. -/
theorem c1_completeness_check_bypassed :
    Export.exportCheck
        { dataFiles := ["123_2024-01-01.jsonl"], s3Enabled := true,
          listSuccess := true,
          listing := ["chat-logs/2024-01-01/guild_123_1704067200000.json"] }
        (some "123") ["2024-01-01", "2024-01-02"] =
      Export.ExportDecision.proceed ["data/123_2024-01-01.jsonl"] [] ∧
    Export.checkLocalFiles
        { dataFiles := ["123_2024-01-01.jsonl"], s3Enabled := true,
          listSuccess := true,
          listing := ["chat-logs/2024-01-01/guild_123_1704067200000.json"] }
        (some "123") ["2024-01-02"] = [] ∧
    Export.checkS3Files
        { dataFiles := ["123_2024-01-01.jsonl"], s3Enabled := true,
          listSuccess := true,
          listing := ["chat-logs/2024-01-01/guild_123_1704067200000.json"] }
        (some "123") ["2024-01-02"] = [] :=
  ⟨by decide, by decide, by decide⟩

end ChatSummarizer
